import Mathlib

/-!
Formal model of the segmentation validation and cleanup engine of
`frontend/utils/segmentation_validator.py` and of the validation-report
generator of `frontend/utils/segment.py`.

A label volume (`numpy` 3-D integer array obtained from
`get_fdata().astype(np.int16)`) is modelled as a total function from voxel
positions to integers.  Float arithmetic of the source (ratio comparisons)
is modelled by exact rational arithmetic on the integer numerators and
denominators that the source divides.  `scipy.ndimage.label` (a third-party
primitive, not part of this repository) is modelled by its documented
contract: connected components of a boolean mask under 6-connectivity
(face adjacency), a pure function, numbering irrelevant.
-/

namespace Vista3D

/-- A voxel position in an `a × b × c` grid. -/
abbrev Pos (a b c : ℕ) := Fin a × Fin b × Fin c

/-- A 3-D label volume: one integer label per voxel, `0` = background. -/
abbrev Volume (a b c : ℕ) := Pos a b c → ℤ

/-- Two natural coordinates differ by exactly one. -/
def adjStep (i j : ℕ) : Prop := i + 1 = j ∨ j + 1 = i

instance (i j : ℕ) : Decidable (adjStep i j) := by unfold adjStep; infer_instance

theorem adjStep_symm {i j : ℕ} (h : adjStep i j) : adjStep j i := h.symm

/-- Face adjacency (6-connectivity): the positions agree on two coordinates
and differ by one on the third.  This is the default `scipy.ndimage.label`
structuring element (rank-1 connectivity) in three dimensions. -/
def adj {a b c : ℕ} (p q : Pos a b c) : Prop :=
  (p.1 = q.1 ∧ p.2.1 = q.2.1 ∧ adjStep p.2.2.val q.2.2.val) ∨
  (p.1 = q.1 ∧ adjStep p.2.1.val q.2.1.val ∧ p.2.2 = q.2.2) ∨
  (adjStep p.1.val q.1.val ∧ p.2.1 = q.2.1 ∧ p.2.2 = q.2.2)

instance {a b c : ℕ} (p q : Pos a b c) : Decidable (adj p q) := by
  unfold adj; infer_instance

theorem adj_symm {a b c : ℕ} {p q : Pos a b c} (h : adj p q) : adj q p := by
  rcases h with ⟨h1, h2, h3⟩ | ⟨h1, h2, h3⟩ | ⟨h1, h2, h3⟩
  · exact Or.inl ⟨h1.symm, h2.symm, adjStep_symm h3⟩
  · exact Or.inr (Or.inl ⟨h1.symm, adjStep_symm h2, h3.symm⟩)
  · exact Or.inr (Or.inr ⟨adjStep_symm h1, h2.symm, h3.symm⟩)

/-- One step of connectivity inside a boolean mask: both endpoints lie in the
mask and are face adjacent. -/
def Rel {a b c : ℕ} (m : Pos a b c → Bool) (p q : Pos a b c) : Prop :=
  m p = true ∧ m q = true ∧ adj p q

theorem Rel_symm {a b c : ℕ} {m : Pos a b c → Bool} :
    Symmetric (Rel m) := fun _ _ h => ⟨h.2.1, h.1, adj_symm h.2.2⟩

/-- `Reach m p q`: `p` lies in the mask `m` and `q` is connected to `p`
through a path of face-adjacent mask voxels (the component relation of
`scipy.ndimage.label`). -/
def Reach {a b c : ℕ} (m : Pos a b c → Bool) (p q : Pos a b c) : Prop :=
  m p = true ∧ Relation.ReflTransGen (Rel m) p q

theorem reach_refl {a b c : ℕ} {m : Pos a b c → Bool} {p : Pos a b c}
    (h : m p = true) : Reach m p p := ⟨h, Relation.ReflTransGen.refl⟩

theorem reach_mem {a b c : ℕ} {m : Pos a b c → Bool} {p q : Pos a b c}
    (h : Reach m p q) : m q = true := by
  rcases h with ⟨hp, hr⟩
  induction hr with
  | refl => exact hp
  | tail _ hrel ih => exact hrel.2.1

theorem reach_trans {a b c : ℕ} {m : Pos a b c → Bool} {p q r : Pos a b c}
    (h1 : Reach m p q) (h2 : Reach m q r) : Reach m p r :=
  ⟨h1.1, h1.2.trans h2.2⟩

theorem reach_symm {a b c : ℕ} {m : Pos a b c → Bool} {p q : Pos a b c}
    (h : Reach m p q) : Reach m q p :=
  ⟨reach_mem h, Relation.ReflTransGen.symmetric (@Rel_symm a b c m) h.2⟩

/-! ### An executable breadth-first computation of reachability -/

/-- One expansion step of the frontier: add every mask voxel adjacent to the
current set. -/
def stepSet {a b c : ℕ} (m : Pos a b c → Bool) (s : Finset (Pos a b c)) :
    Finset (Pos a b c) :=
  s ∪ Finset.univ.filter (fun q => m q = true ∧ ∃ x ∈ s, adj x q)

/-- The set of voxels reachable from `p` inside mask `m`, computed by
iterating the expansion step once per voxel of the grid. -/
def reachFin {a b c : ℕ} (m : Pos a b c → Bool) (p : Pos a b c) :
    Finset (Pos a b c) :=
  (stepSet m)^[a * b * c] {p}

theorem subset_stepSet {a b c : ℕ} (m : Pos a b c → Bool)
    (s : Finset (Pos a b c)) : s ⊆ stepSet m s :=
  Finset.subset_union_left

theorem stepSet_sound {a b c : ℕ} {m : Pos a b c → Bool} {p : Pos a b c}
    (hp : m p = true) :
    ∀ n q, q ∈ (stepSet m)^[n] ({p} : Finset (Pos a b c)) → Reach m p q := by
  intro n
  induction n with
  | zero =>
    intro q hq
    simp only [Function.iterate_zero, id_eq, Finset.mem_singleton] at hq
    subst hq; exact reach_refl hp
  | succ k ih =>
    intro q hq
    rw [Function.iterate_succ_apply'] at hq
    rcases Finset.mem_union.mp hq with h | h
    · exact ih q h
    · rcases Finset.mem_filter.mp h with ⟨-, hm, x, hx, hadj⟩
      have hx' := ih x hx
      exact reach_trans hx' ⟨reach_mem hx', Relation.ReflTransGen.single
        ⟨reach_mem hx', hm, hadj⟩⟩

theorem iterate_stepSet_subset_succ {a b c : ℕ} (m : Pos a b c → Bool)
    (s : Finset (Pos a b c)) (n : ℕ) :
    (stepSet m)^[n] s ⊆ (stepSet m)^[n + 1] s := by
  rw [Function.iterate_succ_apply']
  exact subset_stepSet m _

/-- If the expansion has not stabilised within `n` steps, the iterate has at
least `n` more elements than the start. -/
theorem card_iterate_of_ne {a b c : ℕ} (m : Pos a b c → Bool)
    (s : Finset (Pos a b c)) :
    ∀ n, (∀ k < n, (stepSet m)^[k + 1] s ≠ (stepSet m)^[k] s) →
      s.card + n ≤ ((stepSet m)^[n] s).card := by
  intro n
  induction n with
  | zero => intro _; simp
  | succ k ih =>
    intro h
    have hk : s.card + k ≤ ((stepSet m)^[k] s).card :=
      ih (fun j hj => h j (Nat.lt_succ_of_lt hj))
    have hne : (stepSet m)^[k + 1] s ≠ (stepSet m)^[k] s :=
      h k (Nat.lt_succ_self k)
    have hss : (stepSet m)^[k] s ⊂ (stepSet m)^[k + 1] s :=
      Finset.ssubset_iff_subset_ne.mpr ⟨iterate_stepSet_subset_succ m s k, fun he => hne he.symm⟩
    have := Finset.card_lt_card hss
    omega

/-- After `card univ` iterations the expansion has reached a fixed point. -/
theorem stepSet_iterate_fixed {a b c : ℕ} (m : Pos a b c → Bool)
    (s : Finset (Pos a b c)) (hs : s.card = 1) :
    stepSet m ((stepSet m)^[a * b * c] s) = (stepSet m)^[a * b * c] s := by
  by_cases hall : ∀ k < a * b * c, (stepSet m)^[k + 1] s ≠ (stepSet m)^[k] s
  · -- impossible: the card would exceed the size of the grid
    have h1 := card_iterate_of_ne m s (a * b * c) hall
    have h2 : ((stepSet m)^[a * b * c] s).card ≤ a * b * c := by
      have := Finset.card_le_univ ((stepSet m)^[a * b * c] s)
      simpa [Finset.card_univ, Fintype.card_prod, Nat.mul_assoc] using this
    omega
  · push_neg at hall
    rcases hall with ⟨k, hk, hfix⟩
    rw [Function.iterate_succ_apply'] at hfix
    -- a fixed point persists to every later iterate
    have stable : ∀ j, (stepSet m)^[k + j] s = (stepSet m)^[k] s := by
      intro j
      induction j with
      | zero => rfl
      | succ i ih =>
        have he : k + (i + 1) = (k + i) + 1 := by omega
        rw [he, Function.iterate_succ_apply', ih, hfix]
    have hN : (stepSet m)^[a * b * c] s = (stepSet m)^[k] s := by
      have he : a * b * c = k + (a * b * c - k) := by omega
      rw [he, stable]
    rw [hN, hfix]

theorem stepSet_complete {a b c : ℕ} {m : Pos a b c → Bool} {p q : Pos a b c}
    (h : Reach m p q) : q ∈ reachFin m p := by
  rcases h with ⟨hp, hr⟩
  have hclosed : stepSet m (reachFin m p) = reachFin m p :=
    stepSet_iterate_fixed m {p} (Finset.card_singleton p)
  have hself : p ∈ reachFin m p := by
    have : ∀ n, p ∈ (stepSet m)^[n] ({p} : Finset (Pos a b c)) := by
      intro n
      induction n with
      | zero => simp
      | succ i ih =>
        rw [Function.iterate_succ_apply']
        exact subset_stepSet m _ ih
    exact this _
  induction hr with
  | refl => exact hself
  | @tail x y hxy hrel ih =>
    have hmem : y ∈ stepSet m (reachFin m p) := by
      refine Finset.mem_union_right _ (Finset.mem_filter.mpr ⟨Finset.mem_univ _, hrel.2.1, ?_⟩)
      exact ⟨x, ih, hrel.2.2⟩
    rwa [hclosed] at hmem

instance decReach {a b c : ℕ} (m : Pos a b c → Bool) (p q : Pos a b c) :
    Decidable (Reach m p q) :=
  decidable_of_iff (m p = true ∧ q ∈ reachFin m p)
    ⟨fun ⟨hp, hq⟩ => stepSet_sound hp _ q hq,
     fun h => ⟨h.1, stepSet_complete h⟩⟩

/-! ### Connected components of a mask

`scipy.ndimage.label(label_mask)` returns a component-ID array and a
component count; components are the equivalence classes of `Reach`.  Tests
may rely only on the set of components and their sizes, never on a
numbering order, so a component is modelled as its voxel set. -/

/-- The connected component of `p` within mask `m` (empty when `p` is not in
the mask). -/
def classOf {a b c : ℕ} (m : Pos a b c → Bool) (p : Pos a b c) :
    Finset (Pos a b c) :=
  Finset.univ.filter (fun q => Reach m p q)

theorem mem_classOf {a b c : ℕ} {m : Pos a b c → Bool} {p q : Pos a b c} :
    q ∈ classOf m p ↔ Reach m p q := by
  simp [classOf]

theorem self_mem_classOf {a b c : ℕ} {m : Pos a b c → Bool} {p : Pos a b c}
    (h : m p = true) : p ∈ classOf m p := mem_classOf.mpr (reach_refl h)

theorem classOf_eq_of_reach {a b c : ℕ} {m : Pos a b c → Bool}
    {p q : Pos a b c} (h : Reach m p q) : classOf m p = classOf m q := by
  ext r
  simp only [mem_classOf]
  exact ⟨fun hr => reach_trans (reach_symm h) hr, fun hr => reach_trans h hr⟩

/-- All connected components of the mask: the distinct `Reach`-classes of
its voxels.  `num_features` of `scipy.ndimage.label` is the cardinality of
this set. -/
def componentsOf {a b c : ℕ} (m : Pos a b c → Bool) :
    Finset (Finset (Pos a b c)) :=
  (Finset.univ.filter (fun p => m p = true)).image (classOf m)

theorem mem_componentsOf {a b c : ℕ} {m : Pos a b c → Bool}
    {s : Finset (Pos a b c)} :
    s ∈ componentsOf m ↔ ∃ p, m p = true ∧ classOf m p = s := by
  simp [componentsOf]

/-- Restricting a mask to a sub-mask that still contains the whole component
of `p` does not change reachability from `p`. -/
theorem reach_iff_of_subMask {a b c : ℕ} {m m' : Pos a b c → Bool}
    {p : Pos a b c}
    (hsub : ∀ x, m' x = true → m x = true)
    (hcomp : ∀ x, Reach m p x → m' x = true) :
    ∀ q, Reach m p q ↔ Reach m' p q := by
  intro q
  constructor
  · rintro ⟨hp, hr⟩
    have hp' : m' p = true := hcomp p (reach_refl hp)
    refine ⟨hp', ?_⟩
    induction hr with
    | refl => exact Relation.ReflTransGen.refl
    | @tail x y hxy hrel ih =>
      have hx : Reach m p x := ⟨hp, hxy⟩
      have hy : Reach m p y := ⟨hp, hxy.tail hrel⟩
      exact ih.tail ⟨hcomp x hx, hcomp y hy, hrel.2.2⟩
  · rintro ⟨hp', hr⟩
    refine ⟨hsub p hp', ?_⟩
    induction hr with
    | refl => exact Relation.ReflTransGen.refl
    | @tail x y hxy hrel ih =>
      exact ih.tail ⟨hsub x hrel.1, hsub y hrel.2.1, hrel.2.2⟩

theorem classOf_eq_of_subMask {a b c : ℕ} {m m' : Pos a b c → Bool}
    {p : Pos a b c}
    (hsub : ∀ x, m' x = true → m x = true)
    (hcomp : ∀ x, Reach m p x → m' x = true) :
    classOf m p = classOf m' p := by
  ext q
  simp only [mem_classOf]
  exact reach_iff_of_subMask hsub hcomp q

/-! ### Label extraction (`np.unique`) -/

/-- The boolean mask of one label: `label_mask = (seg_data == label_id)`. -/
def maskOf {a b c : ℕ} (v : Volume a b c) (l : ℤ) : Pos a b c → Bool :=
  fun p => decide (v p = l)

theorem maskOf_eq_true {a b c : ℕ} {v : Volume a b c} {l : ℤ}
    {p : Pos a b c} : maskOf v l p = true ↔ v p = l := by
  simp [maskOf]

/-- The set of distinct voxel values of the volume (`np.unique(seg_data)`). -/
def valuesOf {a b c : ℕ} (v : Volume a b c) : Finset ℤ :=
  Finset.univ.image v

/-- Every voxel position, enumerated. -/
def allPos (a b c : ℕ) : List (Pos a b c) :=
  (List.finRange a).flatMap (fun i =>
    (List.finRange b).flatMap (fun j =>
      (List.finRange c).map (fun k => (i, j, k))))

theorem mem_allPos {a b c : ℕ} (p : Pos a b c) : p ∈ allPos a b c := by
  rcases p with ⟨i, j, k⟩
  simp [allPos]

/-- `np.unique(seg_data)` as the ascending list of distinct values. -/
def uniqueValues {a b c : ℕ} (v : Volume a b c) : List ℤ :=
  List.insertionSort (· ≤ ·) ((allPos a b c).map v).dedup

/-- The distinct nonzero labels, ascending
(`unique_labels = unique_labels[unique_labels != 0]`). -/
def uniqueLabels {a b c : ℕ} (v : Volume a b c) : List ℤ :=
  (uniqueValues v).filter (fun l => l ≠ 0)

/-- The distinct nonzero labels as a set. -/
def labelsOf {a b c : ℕ} (v : Volume a b c) : Finset ℤ :=
  (valuesOf v).filter (fun l => l ≠ 0)

theorem mem_labelsOf {a b c : ℕ} {v : Volume a b c} {l : ℤ} :
    l ∈ labelsOf v ↔ (∃ p, v p = l) ∧ l ≠ 0 := by
  simp [labelsOf, valuesOf, eq_comm]

theorem mem_uniqueValues {a b c : ℕ} {v : Volume a b c} {l : ℤ} :
    l ∈ uniqueValues v ↔ ∃ p, v p = l := by
  rw [uniqueValues]
  constructor
  · intro h
    rw [List.mem_insertionSort, List.mem_dedup] at h
    rcases List.mem_map.mp h with ⟨p, -, rfl⟩
    exact ⟨p, rfl⟩
  · rintro ⟨p, rfl⟩
    rw [List.mem_insertionSort, List.mem_dedup]
    exact List.mem_map.mpr ⟨p, mem_allPos p, rfl⟩

theorem uniqueValues_nodup {a b c : ℕ} (v : Volume a b c) :
    (uniqueValues v).Nodup :=
  ((List.perm_insertionSort _ _).nodup_iff).mpr (List.nodup_dedup _)

theorem mem_uniqueLabels {a b c : ℕ} {v : Volume a b c} {l : ℤ} :
    l ∈ uniqueLabels v ↔ l ∈ labelsOf v := by
  rw [uniqueLabels, List.mem_filter, mem_labelsOf]
  simp [mem_uniqueValues]

theorem uniqueLabels_nodup {a b c : ℕ} (v : Volume a b c) :
    (uniqueLabels v).Nodup :=
  (uniqueValues_nodup v).filter _

/-- Number of voxels carrying a given value
(`np.count_nonzero(seg_data == label_id)` for a nonzero label). -/
def countLabel {a b c : ℕ} (v : Volume a b c) (l : ℤ) : ℕ :=
  (Finset.univ.filter (fun p => v p = l)).card

/-- Number of segmented (nonzero) voxels (`np.count_nonzero(seg_data)`). -/
def segCount {a b c : ℕ} (v : Volume a b c) : ℕ :=
  (Finset.univ.filter (fun p => v p ≠ 0)).card

/-! ### Warning and error messages

Each f-string the validator can emit is modelled as a constructor carrying
the data interpolated into it; `Msg.render` rebuilds the Python text.
Float percentage formatting (`{x:.1%}`, round-half-even) is reproduced over
exact rationals. -/

/-- Round `q * s` half to even (the rounding used by Python string
formatting), computed on numerator and denominator. -/
def roundHEScaled (q : ℚ) (s : ℕ) : ℤ :=
  let n := q.num * (s : ℤ)
  let d := (q.den : ℤ)
  let f := Int.fdiv n d
  let r2 := 2 * (n - f * d)
  if d < r2 then f + 1
  else if r2 < d then f
  else if f % 2 = 0 then f else f + 1

/-- Python format `{q:.1%}`: percentage with one decimal digit
(nonnegative values). -/
def fmtPct1 (q : ℚ) : String :=
  let m := roundHEScaled q 1000
  s!"{m / 10}.{m % 10}%"

/-- A Python 3-tuple `(x, y, z)` as printed in an f-string. -/
def fmtShape (s : ℕ × ℕ × ℕ) : String :=
  let x := s.1
  let y := s.2.1
  let z := s.2.2
  s!"({x}, {y}, {z})"

/-- One finding of the validator, carrying the data of the corresponding
f-string of `segmentation_validator.py`. -/
inductive Msg where
  | dimMismatch (segShape inputShape : ℕ × ℕ × ℕ)
  | affineMismatch
  | unknownLabels (ids : List ℤ)
  | negativeLabels (ids : List ℤ)
  | overSeg (ratio maxRatio : ℚ)
  | underSeg (ratio minRatio : ℚ)
  | smallLabels (entries : List String) (minVox : ℕ)
  | smallComponents (total : ℕ) (minVox : ℕ)
  | emptySeg
  | dominance (labelId : ℤ) (ratio : ℚ)
  deriving DecidableEq, Repr

/-- The exact message text the source builds for each finding. -/
def Msg.render : Msg → String
  | .dimMismatch s1 s2 =>
      "Dimension mismatch: segmentation " ++ fmtShape s1 ++ " != input " ++ fmtShape s2
  | .affineMismatch => "Affine matrix mismatch between segmentation and input"
  | .unknownLabels ids =>
      let n := ids.length
      let shown := toString (ids.take 10)
      s!"Found {n} unknown label(s): {shown}"
        ++ (if 10 < n then " (showing first 10)" else "")
  | .negativeLabels ids =>
      -- a numpy integer array prints space separated
      "Found negative label IDs: [" ++ String.intercalate " " (ids.map toString) ++ "]"
  | .overSeg r mx =>
      "Segmentation covers " ++ fmtPct1 r ++ " of volume (exceeds "
        ++ fmtPct1 mx ++ " threshold) - possible over-segmentation"
  | .underSeg r mn =>
      "Segmentation covers only " ++ fmtPct1 r ++ " of volume (below "
        ++ fmtPct1 mn ++ " threshold) - possible under-segmentation"
  | .smallLabels entries minVox =>
      let n := entries.length
      s!"Found {n} label(s) with < {minVox} voxels: "
        ++ String.intercalate ", " (entries.take 5)
        ++ (if 5 < n then s!" (showing first 5 of {n})" else "")
  | .smallComponents total minVox =>
      s!"Found {total} small isolated component(s) (< {minVox} voxels each) - possible noise"
  | .emptySeg => "Segmentation is completely empty (only background)"
  | .dominance lid r =>
      s!"Single label (ID: {lid}) dominates segmentation ("
        ++ fmtPct1 r ++ " of segmented voxels)"

/-- Does the first character list start with the second? -/
def hasPrefixCL : List Char → List Char → Bool
  | _, [] => true
  | [], _ :: _ => false
  | a :: as, b :: bs => a == b && hasPrefixCL as bs

/-- Does the second character list occur inside the first? -/
def hasSubstrCL : List Char → List Char → Bool
  | [], pat => hasPrefixCL [] pat
  | s@(_ :: rest), pat => hasPrefixCL s pat || hasSubstrCL rest pat

/-- Python substring membership `pat in s` (true for the empty pattern). -/
def strContains (s pat : String) : Bool :=
  hasSubstrCL s.data pat.data

/-- Validation thresholds (`config` dictionary; the `config.get` defaults of
the source are applied by the caller that builds this record). -/
structure Config where
  min_voxels_per_label : ℕ
  min_voxels_per_component : ℕ
  max_segmentation_ratio : ℚ
  min_segmentation_ratio : ℚ
  enable_cleanup : Bool
  deriving DecidableEq, Repr

/-- A 4×4 affine matrix (floats modelled as exact rationals). -/
abbrev Affine := Fin 4 → Fin 4 → ℚ

/-- `np.allclose(x, y, atol=1e-3)` (default `rtol=1e-5` retained):
`|x - y| <= atol + rtol * |y|` elementwise. -/
def allclose₄ (x y : Affine) : Bool :=
  decide (∀ i j, |x i j - y i j| ≤ 1 / 1000 + (1 / 100000) * |y i j|)

/-- Label dictionary: association list from label ID to label name
(`LABEL_DICT[id]['name']`). -/
abbrev LabelDict := List (ℤ × String)

/-- `label_dict.get(int(label_id), {}).get('name', f'Label {label_id}')`. -/
def labelName (dict : LabelDict) (l : ℤ) : String :=
  match dict.find? (fun kv => kv.1 == l) with
  | some kv => kv.2
  | none => s!"Label {l}"

namespace SegmentationValidator

/-- `validate_dimensions`.  The volume is typed three-dimensional, so the
`len(seg_shape) < 3` branch of the source cannot arise; the remaining
checks (shape equality, affine closeness against an optional reference)
are modelled exactly.  Returns `(is_valid, errors)`. -/
def validate_dimensions (segShape : ℕ × ℕ × ℕ) (segAffine : Affine)
    (input : Option ((ℕ × ℕ × ℕ) × Affine)) : Bool × List Msg :=
  let errors :=
    match input with
    | none => []
    | some (ishape, iaffine) =>
        (if segShape ≠ ishape then [Msg.dimMismatch segShape ishape] else [])
          ++ (if allclose₄ segAffine iaffine then [] else [Msg.affineMismatch])
  (errors.isEmpty, errors)

/-- `validate_labels`: one aggregated warning for unknown nonzero labels; an
error for negative labels.  Returns `(is_valid, warnings, errors)`. -/
def validate_labels {a b c : ℕ} (v : Volume a b c) (dict : LabelDict) :
    Bool × List Msg × List Msg :=
  let unknown_labels :=
    (uniqueLabels v).filter (fun l => !((dict.map Prod.fst).contains l))
  let warnings :=
    if unknown_labels.isEmpty then [] else [Msg.unknownLabels unknown_labels]
  let negative_labels := (uniqueLabels v).filter (fun l => decide (l < 0))
  let errors :=
    if negative_labels.isEmpty then [] else [Msg.negativeLabels negative_labels]
  (errors.isEmpty, warnings, errors)

/-- `validate_voxel_counts`: over or under segmentation ratio warnings plus
one aggregated warning for labels with too few voxels. -/
def validate_voxel_counts {a b c : ℕ} (cfg : Config) (v : Volume a b c)
    (dict : LabelDict) (total_voxels : ℕ) : Bool × List Msg × List Msg :=
  let segmented_voxels := segCount v
  let segmentation_ratio : ℚ :=
    if 0 < total_voxels then mkRat segmented_voxels total_voxels else 0
  let ratioWarnings :=
    if cfg.max_segmentation_ratio < segmentation_ratio then
      [Msg.overSeg segmentation_ratio cfg.max_segmentation_ratio]
    else if segmentation_ratio < cfg.min_segmentation_ratio then
      [Msg.underSeg segmentation_ratio cfg.min_segmentation_ratio]
    else []
  let small_labels :=
    (uniqueLabels v).filterMap (fun l =>
      let voxel_count := countLabel v l
      if voxel_count < cfg.min_voxels_per_label then
        some s!"{labelName dict l} (ID: {l}): {voxel_count} voxels"
      else none)
  let warnings := ratioWarnings ++
    (if small_labels.isEmpty then []
     else [Msg.smallLabels small_labels cfg.min_voxels_per_label])
  let errors : List Msg := []
  (errors.isEmpty, warnings, errors)

/-- `validate_spatial_consistency`: per label, when the label splits into
more than one connected component (`num_features > 1`), components smaller
than `min_voxels_per_component` accumulate into one total; one aggregated
warning if the total is nonzero. -/
def validate_spatial_consistency {a b c : ℕ} (cfg : Config)
    (v : Volume a b c) : Bool × List Msg × List Msg :=
  let total_small_components :=
    (uniqueLabels v).foldl (fun acc l =>
      let comps := componentsOf (maskOf v l)
      if 1 < comps.card then
        acc + (comps.filter (fun s => s.card < cfg.min_voxels_per_component)).card
      else acc) 0
  let warnings :=
    if 0 < total_small_components then
      [Msg.smallComponents total_small_components cfg.min_voxels_per_component]
    else []
  let errors : List Msg := []
  (errors.isEmpty, warnings, errors)

/-- `validate_statistics`: terminal error when only background is present;
otherwise a dominance warning when one label holds more than 90% of the
segmented voxels (`max` with `key=get` returns the first maximiser in
ascending label order). -/
def validate_statistics {a b c : ℕ} (v : Volume a b c) :
    Bool × List Msg × List Msg :=
  if uniqueValues v = [0] then (false, [], [Msg.emptySeg])
  else
    let labels := uniqueLabels v
    let warnings :=
      if labels.isEmpty then []
      else
        let total_segmented := (labels.map (countLabel v)).sum
        let max_label_count := (labels.map (countLabel v)).foldl max 0
        let max_ratio : ℚ :=
          if 0 < total_segmented then mkRat max_label_count total_segmented else 0
        if mkRat 9 10 < max_ratio then
          let max_label_id :=
            (labels.find? (fun l => countLabel v l == max_label_count)).getD 0
          [Msg.dominance max_label_id max_ratio]
        else []
    let errors : List Msg := []
    (errors.isEmpty, warnings, errors)

end SegmentationValidator

namespace SegmentationCleaner

/-- Zero every voxel of label `l` whose connected component within the mask
`w == l` has fewer than `t` voxels (the inner component-removal loop of
`remove_small_components` for one label: each small component `i` gets
`cleaned_data[labeled_array == i] = 0`). -/
def pruneLabel {a b c : ℕ} (t : ℕ) (w : Volume a b c) (l : ℤ) :
    Volume a b c :=
  fun p => if w p = l ∧ (classOf (maskOf w l) p).card < t then 0 else w p

/-- The number of connected components of a mask smaller than `t` voxels. -/
def countSmallComps {a b c : ℕ} (t : ℕ) (m : Pos a b c → Bool) : ℕ :=
  ((componentsOf m).filter (fun s => s.card < t)).card

/-- `remove_small_components(seg_data, min_voxels)`: iterate over the
distinct nonzero labels of the input in ascending order; for each label,
zero its components smaller than the threshold in the accumulating copy
and add their number to the removal count.  `min_voxels=None` falls back
to the configured `min_voxels_per_component`. -/
def remove_small_components {a b c : ℕ} (cfg : Config) (v : Volume a b c)
    (min_voxels : Option ℕ) : Volume a b c × ℕ :=
  let t := min_voxels.getD cfg.min_voxels_per_component
  (uniqueLabels v).foldl
    (fun acc l => (pruneLabel t acc.1 l, acc.2 + countSmallComps t (maskOf acc.1 l)))
    (v, 0)

/-- Voxel coordinate along one axis. -/
def coordOf {a b c : ℕ} (p : Pos a b c) : Fin 3 → ℕ
  | 0 => p.1.val
  | 1 => p.2.1.val
  | 2 => p.2.2.val

/-- Grid extent along one axis. -/
def dimSize (a b c : ℕ) : Fin 3 → ℕ
  | 0 => a
  | 1 => b
  | 2 => c

/-- The 2-voxel-thick face slab of one axis: `slice(0, 2)` at the low end,
`slice(-2, None)` (clamped at 0 as numpy does) at the high end. -/
def slab (a b c : ℕ) (d : Fin 3) (high : Bool) : Finset (Pos a b c) :=
  Finset.univ.filter (fun p =>
    if high then dimSize a b c d ≤ coordOf p d + 2 else coordOf p d < 2)

/-- One face of `clean_artifacts`: count the strictly positive voxels of the
slab (`np.count_nonzero(cleaned_data[edge_mask] > 0)`); when some exist and
they are less than 10% of the slab (`edge_voxels / np.prod(shape) < 0.1`,
exact rational form `10 * edge_voxels < slab size`), zero them
(`cleaned_data[edge_mask & (cleaned_data > 0)] = 0`) and report their
count, else leave the volume unchanged. -/
def applyFace {a b c : ℕ} (v : Volume a b c) (s : Finset (Pos a b c)) :
    Volume a b c × ℕ :=
  let edge_voxels := (s.filter (fun p => 0 < v p)).card
  if 0 < edge_voxels then
    if edge_voxels * 10 < s.card then
      ((fun p => if p ∈ s ∧ 0 < v p then 0 else v p), edge_voxels)
    else (v, 0)
  else (v, 0)

/-- The six face slabs in the order the source visits them: for each axis,
low end then high end. -/
def facesList (a b c : ℕ) : List (Finset (Pos a b c)) :=
  [slab a b c 0 false, slab a b c 0 true,
   slab a b c 1 false, slab a b c 1 true,
   slab a b c 2 false, slab a b c 2 true]

/-- `clean_artifacts(seg_data)`: apply the six face checks in order against
the accumulating array state; the returned count is
`stats['total_cleaned'] = stats['edge_voxels_removed']`. -/
def clean_artifacts {a b c : ℕ} (v : Volume a b c) : Volume a b c × ℕ :=
  (facesList a b c).foldl
    (fun acc s =>
      let r := applyFace acc.1 s
      (r.1, acc.2 + r.2)) (v, 0)

end SegmentationCleaner

/-! ### The orchestrator `validate_and_clean` -/

/-- `result['stats']`: the two cleanup keys are absent (`none`) unless
cleanup actually changed something. -/
structure Stats where
  total_voxels : ℕ
  segmented_voxels : ℕ
  segmentation_ratio : ℚ
  num_labels : ℕ
  label_ids : List ℤ
  components_removed : Option ℕ
  artifacts_removed : Option ℕ
  deriving DecidableEq, Repr

/-- The result dictionary of `validate_and_clean`. -/
structure Outcome (a b c : ℕ) where
  valid : Bool
  warnings : List Msg
  errors : List Msg
  stats : Stats
  cleaned : Bool
  cleaned_img : Option (Volume a b c)

/-- `validate_and_clean(segmentation_img, input_img, label_dict, config)`:
run the five checks in order, merge findings, set `valid`, and when cleanup
is enabled and any finding exists, run `remove_small_components` then
`clean_artifacts`, attaching the cleaned volume only when one of the two
steps removed something.  `v` is `seg_data = get_fdata().astype(np.int16)`;
the optional reference contributes only its shape and affine. -/
def validate_and_clean {a b c : ℕ} (v : Volume a b c) (segAffine : Affine)
    (input : Option ((ℕ × ℕ × ℕ) × Affine)) (dict : LabelDict)
    (cfg : Config) : Outcome a b c :=
  let total_voxels := a * b * c
  let segmented_voxels := segCount v
  let stats0 : Stats :=
    { total_voxels := total_voxels
      segmented_voxels := segmented_voxels
      segmentation_ratio :=
        if 0 < total_voxels then mkRat segmented_voxels total_voxels else 0
      num_labels := (uniqueLabels v).length
      label_ids := uniqueLabels v
      components_removed := none
      artifacts_removed := none }
  let dim := SegmentationValidator.validate_dimensions (a, b, c) segAffine input
  let lab := SegmentationValidator.validate_labels v dict
  let vox := SegmentationValidator.validate_voxel_counts cfg v dict total_voxels
  let spa := SegmentationValidator.validate_spatial_consistency cfg v
  let sta := SegmentationValidator.validate_statistics v
  let warnings := lab.2.1 ++ vox.2.1 ++ spa.2.1 ++ sta.2.1
  let errors := dim.2 ++ lab.2.2 ++ vox.2.2 ++ spa.2.2 ++ sta.2.2
  let valid := errors.isEmpty
  if cfg.enable_cleanup = true ∧ (warnings ≠ [] ∨ errors ≠ []) then
    let rsc := SegmentationCleaner.remove_small_components cfg v none
    let art := SegmentationCleaner.clean_artifacts rsc.1
    if 0 < rsc.2 ∨ 0 < art.2 then
      { valid := valid, warnings := warnings, errors := errors,
        stats := { stats0 with
          components_removed := some rsc.2, artifacts_removed := some art.2 },
        cleaned := true, cleaned_img := some art.1 }
    else
      { valid := valid, warnings := warnings, errors := errors,
        stats := stats0, cleaned := false, cleaned_img := none }
  else
    { valid := valid, warnings := warnings, errors := errors,
      stats := stats0, cleaned := false, cleaned_img := none }

/-! ### Array-reference model of the cleanup operations

To state that the cleanup operations never mutate the array passed by the
caller, numpy arrays are modelled as references into a heap.  Each
operation first evaluates `seg_data.copy()` (a fresh allocation) and its
loop writes only through that fresh reference; the loop itself is the pure
function proved elsewhere in this file. -/

/-- A heap of allocated volumes; references below `next` are live. -/
structure Heap (a b c : ℕ) where
  next : ℕ
  mem : ℕ → Volume a b c

/-- Allocate a fresh volume, returning the new heap and its reference. -/
def heapAlloc {a b c : ℕ} (h : Heap a b c) (x : Volume a b c) :
    Heap a b c × ℕ :=
  ({ next := h.next + 1, mem := fun i => if i = h.next then x else h.mem i },
   h.next)

/-- Overwrite the volume at a reference. -/
def heapWrite {a b c : ℕ} (h : Heap a b c) (r : ℕ) (x : Volume a b c) :
    Heap a b c :=
  { next := h.next, mem := fun i => if i = r then x else h.mem i }

/-- `remove_small_components` at the reference level:
`cleaned_data = seg_data.copy()` allocates, the per-label loop mutates only
`cleaned_data`, and the function returns that reference with the removal
count.  Returns `(heap, returned reference, count)`. -/
def remove_small_components_ref {a b c : ℕ} (cfg : Config) (h : Heap a b c)
    (src : ℕ) (min_voxels : Option ℕ) : Heap a b c × ℕ × ℕ :=
  let al := heapAlloc h (h.mem src)
  let r := SegmentationCleaner.remove_small_components cfg (h.mem src) min_voxels
  (heapWrite al.1 al.2 r.1, al.2, r.2)

/-- `clean_artifacts` at the reference level: `cleaned_data =
seg_data.copy()` allocates, the six face checks mutate only `cleaned_data`.
Returns `(heap, returned reference, total_cleaned)`. -/
def clean_artifacts_ref {a b c : ℕ} (h : Heap a b c) (src : ℕ) :
    Heap a b c × ℕ × ℕ :=
  let al := heapAlloc h (h.mem src)
  let r := SegmentationCleaner.clean_artifacts (h.mem src)
  (heapWrite al.1 al.2 r.1, al.2, r.2)

/-! ### The report generator `generate_validation_report` of `segment.py` -/

/-- Insert a thousands separator before every fourth digit of a reversed
digit list (Python format `:,`). -/
def insertCommas : List Char → List Char
  | d1 :: d2 :: d3 :: d4 :: rest => d1 :: d2 :: d3 :: ',' :: insertCommas (d4 :: rest)
  | l => l
termination_by l => l.length
decreasing_by simp

/-- Python `{n:,}` for a natural number. -/
def fmtComma (n : ℕ) : String :=
  ⟨(insertCommas (toString n).data.reverse).reverse⟩

/-- Left-pad a nonnegative integer below 100 to two digits. -/
def pad2 (k : ℤ) : String :=
  if k < 10 then "0" ++ toString k else toString k

/-- Python `{q:.2%}` for a nonnegative rational. -/
def fmtPct2 (q : ℚ) : String :=
  let m := roundHEScaled q 10000
  s!"{m / 100}." ++ pad2 (m % 100) ++ "%"

/-- The `validation_config` values as the report prints them:
`validation_config.get(key, 'N/A')` interpolated into an f-string.  The
entries of that dictionary are untyped (`Any`), so this model carries the
printed form of each value directly. -/
structure ReportConfigView where
  enable_validation : String
  enable_cleanup : String
  min_voxels_per_label : String
  min_voxels_per_component : String
  max_segmentation_ratio : String
  min_segmentation_ratio : String

/-- The fixed header of the report; `now` is the embedded value of
`datetime.now().strftime(...)`, an input read from the environment. -/
def headerLines (patient_id scan_name nifti_file_name now : String) :
    List String :=
  ["# Segmentation Validation Report",
   "",
   "**Patient ID:** " ++ patient_id,
   "**Scan:** " ++ scan_name,
   "**Input File:** " ++ nifti_file_name,
   "**Generated:** " ++ now,
   "",
   "---",
   ""]

/-- The report body built from the most recent validation result (empty when
no result exists). -/
def bodyLines {a b c : ℕ} (last : Option (Outcome a b c))
    (vcfg : ReportConfigView) (dict : LabelDict) : List String :=
  match last with
  | none => []
  | some result =>
    let stats := result.stats
    let nw := result.warnings.length
    let ne := result.errors.length
    let overall := ["## Overall Status", ""] ++
      (if result.valid = true ∧ result.warnings = [] then
        ["✅ **PASSED** - No issues detected"]
      else if result.valid = true then
        [s!"⚠️ **PASSED WITH WARNINGS** - {nw} warning(s) found"]
      else
        [s!"❌ **FAILED** - {ne} error(s) found"]) ++ [""]
    let nl := stats.label_ids.length
    let statsLines :=
      ["## Statistics", "", "| Metric | Value |", "|--------|-------|",
       "| Total Voxels | " ++ fmtComma stats.total_voxels ++ " |",
       "| Segmented Voxels | " ++ fmtComma stats.segmented_voxels ++ " |",
       "| Segmentation Ratio | " ++ fmtPct2 stats.segmentation_ratio ++ " |",
       s!"| Number of Labels | {stats.num_labels} |"] ++
      (if stats.label_ids.isEmpty then []
       else
        let shown := String.intercalate ", " ((stats.label_ids.take 20).map toString)
        let extra := if 20 < nl then s!" ... (and {nl - 20} more)" else ""
        ["| Label IDs | " ++ shown ++ extra ++ " |"])
    let cleanupLines :=
      (if result.cleaned = true then
        ["", "### Cleanup Statistics", "", "| Operation | Count |",
         "|-----------|-------|"] ++
        (match stats.components_removed with
         | some n => [s!"| Small Components Removed | {n} |"]
         | none => []) ++
        (match stats.artifacts_removed with
         | some n => [s!"| Artifact Voxels Removed | {n} |"]
         | none => [])
      else []) ++ [""]
    let errorLines :=
      if result.errors.isEmpty then []
      else ["## Errors", ""] ++
        (result.errors.enum.map (fun ie =>
          let i := ie.1 + 1
          s!"{i}. ❌ " ++ Msg.render ie.2)) ++ [""]
    let warningLines :=
      if result.warnings.isEmpty then []
      else ["## Warnings", ""] ++
        (result.warnings.enum.map (fun iw =>
          let i := iw.1 + 1
          s!"{i}. ⚠️ " ++ Msg.render iw.2)) ++ [""]
    let configLines :=
      ["## Validation Configuration", "", "| Setting | Value |",
       "|---------|-------|",
       "| Validation Enabled | " ++ vcfg.enable_validation ++ " |",
       "| Cleanup Enabled | " ++ vcfg.enable_cleanup ++ " |",
       "| Min Voxels per Label | " ++ vcfg.min_voxels_per_label ++ " |",
       "| Min Voxels per Component | " ++ vcfg.min_voxels_per_component ++ " |",
       "| Max Segmentation Ratio | " ++ vcfg.max_segmentation_ratio ++ " |",
       "| Min Segmentation Ratio | " ++ vcfg.min_segmentation_ratio ++ " |",
       ""]
    let labelLines :=
      if stats.label_ids.isEmpty then []
      else
        ["## Label Details", "", "| Label ID | Label Name | Status |",
         "|----------|-----------|--------|"] ++
        (stats.label_ids.map (fun lid =>
          let lname :=
            match dict.find? (fun kv => kv.1 == lid) with
            | some kv => kv.2
            | none => s!"Unknown (ID: {lid})"
          let lw := result.warnings.filter (fun w =>
            strContains (Msg.render w) s!"ID: {lid}" ||
              strContains (Msg.render w) lname)
          let k := lw.length
          let status :=
            if lw.isEmpty then "✅ OK" else s!"⚠️ {k} warning(s)"
          s!"| {lid} | " ++ lname ++ " | " ++ status ++ " |")) ++ [""]
    let recs :=
      (if result.errors.isEmpty then []
       else ["- **Review errors immediately** - Critical issues detected that may affect segmentation quality"]) ++
      (if 5 < nw then
        ["- **Multiple warnings detected** - Consider reviewing segmentation parameters or input image quality"]
       else []) ++
      (if mkRat 9 10 < stats.segmentation_ratio then
        ["- **High segmentation ratio** - Segmentation covers most of the volume. Verify this is expected for your use case."]
       else []) ++
      (if stats.segmentation_ratio < mkRat 1 100 then
        ["- **Low segmentation ratio** - Segmentation covers very little of the volume. Consider checking if target structures are present in the image."]
       else []) ++
      (if stats.num_labels = 0 then
        ["- **No labels found** - Segmentation appears empty. Check if segmentation completed successfully."]
       else []) ++
      (if result.cleaned = true then
        ["- **Cleanup was applied** - Review cleaned segmentation to ensure valid structures were not removed"]
       else [])
    let recs := if recs.isEmpty then
        ["- **No issues detected** - Segmentation quality appears good"]
      else recs
    let recLines := ["## Recommendations", ""] ++ recs ++ [""]
    let footer :=
      ["---", "",
       "*This report was automatically generated by the Vista-3D segmentation validation system.*",
       "",
       "*For more information about validation settings and configuration, see the documentation in the project\x27s docs folder.*"]
    overall ++ statsLines ++ cleanupLines ++ errorLines ++ warningLines ++
      configLines ++ labelLines ++ recLines ++ footer

/-- All lines of the markdown report. -/
def reportLines {a b c : ℕ} (validation_results : List (Outcome a b c))
    (patient_id scan_name nifti_file_name : String)
    (vcfg : ReportConfigView) (dict : LabelDict) (now : String) :
    List String :=
  headerLines patient_id scan_name nifti_file_name now ++
    bodyLines validation_results.getLast? vcfg dict

/-- `generate_validation_report`: the joined report text.  The call to
`datetime.now()` inside the source is modelled as the extra input `now`. -/
def generate_validation_report {a b c : ℕ}
    (validation_results : List (Outcome a b c))
    (patient_id scan_name nifti_file_name : String)
    (vcfg : ReportConfigView) (dict : LabelDict) (now : String) : String :=
  String.intercalate "\n"
    (reportLines validation_results patient_id scan_name nifti_file_name vcfg dict now)

/-! ### Auxiliary description of the component-removal pass

`prunedBy v t S` is the volume obtained from `v` by zeroing, for every label
in `S`, the voxels lying in a component of that label smaller than `t`; the
per-label loop of `remove_small_components` is proved below to realise
exactly this. -/

/-- `v` with the small components (threshold `t`) of every label in `S`
zeroed. -/
def prunedBy {a b c : ℕ} (v : Volume a b c) (t : ℕ) (S : Finset ℤ) :
    Volume a b c :=
  fun p =>
    if v p ∈ S ∧ (classOf (maskOf v (v p)) p).card < t then 0 else v p

/-! ### Concrete example inputs used by witnesses and counterexamples -/

/-- The documented default configuration (`min_voxels_per_label = 10`,
`min_voxels_per_component = 10`, `max_segmentation_ratio = 0.95`,
`min_segmentation_ratio = 0.001`, cleanup enabled). -/
def exCfg : Config := ⟨10, 10, mkRat 95 100, mkRat 1 1000, true⟩

/-- A single-voxel volume carrying label 5. -/
def ex1 : Volume 1 1 1 := fun _ => 5

/-- An all-background 2×2×2 volume. -/
def exZero : Volume 2 2 2 := fun _ => 0

/-- An 11×1×1 volume with one voxel of the negative label `-1`. -/
def exNeg : Volume 11 1 1 := fun p => if p.1.val = 5 then -1 else 0

/-- A 3×1×1 volume carrying the labels 5, 7 and 9999. -/
def ex579 : Volume 3 1 1 := fun p =>
  if p.1.val = 0 then 5 else if p.1.val = 1 then 7 else 9999

/-- A catalog knowing labels 5 and 7 only. -/
def exDict : LabelDict := [(5, "liver"), (7, "spleen")]

/-- A one-reference heap holding an all-background volume. -/
def exHeap : Heap 1 1 1 := ⟨1, fun _ => fun _ => 0⟩

/-- A stats record of an issue-free empty validation result. -/
def exStats : Stats := ⟨8, 0, mkRat 0 1, 0, [], none, none⟩

/-- A clean validation outcome, for exercising the report generator. -/
def exOutcome : Outcome 2 2 2 := ⟨true, [], [], exStats, false, none⟩

/-- A rendered configuration table for the report generator. -/
def exVCfg : ReportConfigView := ⟨"True", "True", "10", "10", "0.95", "0.001"⟩

/-! ## Claim theorems -/

set_option maxRecDepth 10000

/-- C9: neither `remove_small_components` nor `clean_artifacts` mutates the
caller's array: after either call the volume held by the argument reference
is unchanged, and the returned reference is distinct from the argument. -/
theorem cleanup_ops_do_not_mutate_caller_array {a b c : ℕ} (cfg : Config)
    (h : Heap a b c) (src : ℕ) (mv : Option ℕ) (hsrc : src < h.next) :
    ((remove_small_components_ref cfg h src mv).1.mem src = h.mem src ∧
      (remove_small_components_ref cfg h src mv).2.1 ≠ src) ∧
    ((clean_artifacts_ref h src).1.mem src = h.mem src ∧
      (clean_artifacts_ref h src).2.1 ≠ src) := by
  have hne : src ≠ h.next := Nat.ne_of_lt hsrc
  refine ⟨⟨?_, ?_⟩, ?_, ?_⟩ <;>
    simp [remove_small_components_ref, clean_artifacts_ref, heapAlloc,
      heapWrite, hne, Ne.symm hne]

/-- C9 witness: the frame property applied to a concrete live reference. -/
theorem cleanup_ops_do_not_mutate_caller_array_witness :
    ((remove_small_components_ref exCfg exHeap 0 none).1.mem 0 = exHeap.mem 0 ∧
      (remove_small_components_ref exCfg exHeap 0 none).2.1 ≠ 0) ∧
    ((clean_artifacts_ref exHeap 0).1.mem 0 = exHeap.mem 0 ∧
      (clean_artifacts_ref exHeap 0).2.1 ≠ 0) :=
  cleanup_ops_do_not_mutate_caller_array exCfg exHeap 0 none (by decide)

/-- C2 counterexample: the report embeds `datetime.now()` in its
`**Generated:**` line, so two invocations on the very same validation
result and metadata but at different wall-clock instants return different
strings. -/
theorem report_not_deterministic :
    generate_validation_report [exOutcome] "P1" "scan1" "f.nii.gz" exVCfg []
        "2024-01-01 00:00:00" ≠
      generate_validation_report [exOutcome] "P1" "scan1" "f.nii.gz" exVCfg []
        "2024-01-01 00:00:01" := by
  decide

/-- C2 amended: the report is deterministic in everything except the
timestamp: for a fixed result and metadata, the report produced at time
`t1` is exactly the report produced at time `t2` with line 5 (the
`**Generated:**` line) replaced. -/
theorem report_deterministic_except_timestamp {a b c : ℕ}
    (results : List (Outcome a b c)) (pid sn fn : String)
    (vcfg : ReportConfigView) (dict : LabelDict) (t1 t2 : String) :
    reportLines results pid sn fn vcfg dict t1 =
      (reportLines results pid sn fn vcfg dict t2).set 5
        ("**Generated:** " ++ t1) := rfl

/-- C6 counterexample: `clean_artifacts` counts and zeroes only strictly
positive voxels, not all nonzero voxels.  In an 11×1×1 volume whose single
nonzero voxel carries the negative label `-1`, the axis-1 low slab is the
whole volume, its nonzero fraction is 1/11 < 10%, yet the pass leaves the
volume unchanged and removes nothing. -/
theorem clean_artifacts_ignores_negative_voxels :
    exNeg ((5 : Fin 11), (0 : Fin 1), (0 : Fin 1)) ≠ 0 ∧
    ((5 : Fin 11), (0 : Fin 1), (0 : Fin 1)) ∈ SegmentationCleaner.slab 11 1 1 1 false ∧
    (((SegmentationCleaner.slab 11 1 1 1 false).filter (fun p => exNeg p ≠ 0)).card : ℚ) /
        ((SegmentationCleaner.slab 11 1 1 1 false).card : ℚ) < 1 / 10 ∧
    SegmentationCleaner.clean_artifacts exNeg = (exNeg, 0) := by
  have h1 : ((SegmentationCleaner.slab 11 1 1 1 false).filter
      (fun p => exNeg p ≠ 0)).card = 1 := by decide
  have h2 : (SegmentationCleaner.slab 11 1 1 1 false).card = 11 := by decide
  refine ⟨by decide, by decide, ?_, by decide⟩
  rw [h1, h2]
  norm_num

/-- C6 amended (nonzero → strictly positive): for a face slab with at least
one voxel, if the fraction of strictly positive voxels in the slab is
strictly below 10% then the face application zeroes exactly the positive
voxels of the slab and reports their count, and if the fraction is at least
10% the face application returns the volume unchanged with count 0. -/
theorem clean_artifacts_face_threshold {a b c : ℕ} (v : Volume a b c)
    (s : Finset (Pos a b c)) (hs : 0 < s.card) :
    ((((s.filter (fun p => 0 < v p)).card : ℚ) / (s.card : ℚ) < 1 / 10 →
      SegmentationCleaner.applyFace v s =
        ((fun p => if p ∈ s ∧ 0 < v p then 0 else v p),
          (s.filter (fun p => 0 < v p)).card)) ∧
    ((1 : ℚ) / 10 ≤ ((s.filter (fun p => 0 < v p)).card : ℚ) / (s.card : ℚ) →
      SegmentationCleaner.applyFace v s = (v, 0))) := by
  have hcard : (0 : ℚ) < (s.card : ℚ) := by exact_mod_cast hs
  constructor
  · intro hlt
    have hfrac : (s.filter (fun p => 0 < v p)).card * 10 < s.card := by
      have h10 := (div_lt_div_iff₀ hcard (by norm_num : (0:ℚ) < 10)).mp hlt
      rw [one_mul] at h10
      exact_mod_cast h10
    rw [SegmentationCleaner.applyFace]
    by_cases hz : 0 < (s.filter (fun p => 0 < v p)).card
    · simp [hz, hfrac]
    · have h0 : (s.filter (fun p => 0 < v p)).card = 0 := by omega
      simp only [hz, if_neg, if_false]
      rw [h0]
      refine Prod.ext ?_ rfl
      funext p
      by_cases hp : p ∈ s ∧ 0 < v p
      · exfalso
        have hmem : p ∈ s.filter (fun p => 0 < v p) :=
          Finset.mem_filter.mpr ⟨hp.1, hp.2⟩
        have := Finset.card_pos.mpr ⟨p, hmem⟩
        omega
      · simp [hp]
  · intro hge
    have hfrac : ¬ ((s.filter (fun p => 0 < v p)).card * 10 < s.card) := by
      intro hlt
      have h10 : ((s.filter (fun p => 0 < v p)).card : ℚ) * 10 < (s.card : ℚ) := by
        exact_mod_cast hlt
      have h2 : ((s.filter (fun p => 0 < v p)).card : ℚ) / (s.card : ℚ) < 1 / 10 :=
        (div_lt_div_iff₀ hcard (by norm_num : (0:ℚ) < 10)).mpr (by linarith)
      linarith
    rw [SegmentationCleaner.applyFace]
    by_cases hz : 0 < (s.filter (fun p => 0 < v p)).card
    · simp [hz, hfrac]
    · simp [hz]

/-- C6 witness: the amended face rule applied to the whole grid of a fully
labelled single-voxel volume (positive fraction 1 ≥ 10%, face untouched). -/
theorem clean_artifacts_face_threshold_witness :
    0 < (Finset.univ : Finset (Pos 1 1 1)).card ∧
    (((((Finset.univ : Finset (Pos 1 1 1)).filter (fun p => 0 < ex1 p)).card : ℚ) /
          (((Finset.univ : Finset (Pos 1 1 1)).card : ℚ)) < 1 / 10 →
      SegmentationCleaner.applyFace ex1 Finset.univ =
        ((fun p => if p ∈ (Finset.univ : Finset (Pos 1 1 1)) ∧ 0 < ex1 p then 0 else ex1 p),
          ((Finset.univ : Finset (Pos 1 1 1)).filter (fun p => 0 < ex1 p)).card)) ∧
    ((1 : ℚ) / 10 ≤ ((((Finset.univ : Finset (Pos 1 1 1)).filter (fun p => 0 < ex1 p)).card : ℚ) /
          (((Finset.univ : Finset (Pos 1 1 1)).card : ℚ))) →
      SegmentationCleaner.applyFace ex1 Finset.univ = (ex1, 0))) :=
  ⟨by decide, clean_artifacts_face_threshold ex1 Finset.univ (by decide)⟩

/-- C7: the label-legality check emits a warning exactly when some nonzero
label of the volume is absent from the catalog, it never emits more than
one warning, and on the volume with labels {5, 7, 9999} against a catalog
knowing only 5 and 7 the single warning cites `9999` and the count 1. -/
theorem unknown_label_single_aggregated_warning :
    (∀ (a b c : ℕ) (v : Volume a b c) (dict : LabelDict),
      ((SegmentationValidator.validate_labels v dict).2.1 ≠ [] ↔
        ∃ l ∈ labelsOf v, ∀ kv ∈ dict, kv.1 ≠ l) ∧
      (SegmentationValidator.validate_labels v dict).2.1.length ≤ 1) ∧
    (SegmentationValidator.validate_labels ex579 exDict).2.1 =
      [Msg.unknownLabels [9999]] ∧
    Msg.render (Msg.unknownLabels [9999]) = "Found 1 unknown label(s): [9999]" ∧
    strContains (Msg.render (Msg.unknownLabels [9999])) "9999" = true := by
  refine ⟨fun a b c v dict => ?_, by decide, by decide, by decide⟩
  have hfmem : ∀ l : ℤ, l ∈ (uniqueLabels v).filter
      (fun l => !((dict.map Prod.fst).contains l)) ↔
      (l ∈ labelsOf v ∧ ∀ kv ∈ dict, kv.1 ≠ l) := by
    intro l
    rw [List.mem_filter, mem_uniqueLabels]
    have hcon : ((dict.map Prod.fst).contains l = true) ↔ ∃ kv ∈ dict, kv.1 = l := by
      simp [List.contains, List.elem_iff, List.mem_map]
    constructor
    · rintro ⟨h1, h2⟩
      refine ⟨h1, fun kv hkv hkvl => ?_⟩
      rw [Bool.not_eq_eq_eq_not, Bool.not_true] at h2
      rw [Bool.eq_false_iff] at h2
      exact h2 (hcon.mpr ⟨kv, hkv, hkvl⟩)
    · rintro ⟨h1, h2⟩
      refine ⟨h1, ?_⟩
      rw [Bool.not_eq_eq_eq_not, Bool.not_true, Bool.eq_false_iff]
      intro hc
      rcases hcon.mp hc with ⟨kv, hkv, hkvl⟩
      exact h2 kv hkv hkvl
  rw [SegmentationValidator.validate_labels]
  by_cases hemp : ((uniqueLabels v).filter
      (fun l => !((dict.map Prod.fst).contains l))).isEmpty
  · rw [if_pos hemp]
    rw [List.isEmpty_iff] at hemp
    refine ⟨⟨fun hne => absurd rfl hne, ?_⟩, by simp⟩
    rintro ⟨l, hl, hnone⟩
    have : l ∈ ([] : List ℤ) := hemp ▸ (hfmem l).mpr ⟨hl, hnone⟩
    exact absurd this (List.not_mem_nil l)
  · rw [if_neg hemp]
    rw [List.isEmpty_iff] at hemp
    refine ⟨⟨fun _ => ?_, fun _ => by simp⟩, by simp⟩
    rcases List.exists_mem_of_ne_nil _ hemp with ⟨l, hl⟩
    exact ⟨l, (hfmem l).mp hl⟩

/-- C8: the over-segmentation warning is emitted by the voxel-count check
if and only if the segmented fraction strictly exceeds
`max_segmentation_ratio`; equality at the threshold emits nothing. -/
theorem overseg_warning_iff_ratio_strictly_above {a b c : ℕ} (cfg : Config)
    (v : Volume a b c) (dict : LabelDict) (h : 0 < a * b * c) :
    (∃ r mx, Msg.overSeg r mx ∈
        (SegmentationValidator.validate_voxel_counts cfg v dict (a * b * c)).2.1) ↔
      cfg.max_segmentation_ratio * ((a * b * c : ℕ) : ℚ) < (segCount v : ℚ) := by
  have htot : (0 : ℚ) < ((a * b * c : ℕ) : ℚ) := by exact_mod_cast h
  have hratio : (if 0 < a * b * c then mkRat (segCount v) (a * b * c) else 0) =
      (segCount v : ℚ) / ((a * b * c : ℕ) : ℚ) := by
    rw [if_pos h, Rat.mkRat_eq_div]
    push_cast
    ring
  have hiff : cfg.max_segmentation_ratio <
      (segCount v : ℚ) / ((a * b * c : ℕ) : ℚ) ↔
      cfg.max_segmentation_ratio * ((a * b * c : ℕ) : ℚ) < (segCount v : ℚ) :=
    lt_div_iff₀ htot
  rw [SegmentationValidator.validate_voxel_counts]
  simp only [hratio]
  constructor
  · rintro ⟨r, mx, hmem⟩
    rcases List.mem_append.mp hmem with hrat | hsmall
    · by_cases hover : cfg.max_segmentation_ratio <
          (segCount v : ℚ) / ((a * b * c : ℕ) : ℚ)
      · exact hiff.mp hover
      · exfalso
        rw [if_neg hover] at hrat
        by_cases hunder : (segCount v : ℚ) / ((a * b * c : ℕ) : ℚ) <
            cfg.min_segmentation_ratio
        · rw [if_pos hunder] at hrat
          simp at hrat
        · rw [if_neg hunder] at hrat
          exact (List.not_mem_nil _) hrat
    · exfalso
      by_cases hsl : ((uniqueLabels v).filterMap (fun l =>
          if countLabel v l < cfg.min_voxels_per_label then
            some s!"{labelName dict l} (ID: {l}): {countLabel v l} voxels"
          else none)).isEmpty
      · rw [if_pos hsl] at hsmall
        exact (List.not_mem_nil _) hsmall
      · rw [if_neg hsl] at hsmall
        simp at hsmall
  · intro hgt
    have hover := hiff.mpr hgt
    refine ⟨(segCount v : ℚ) / ((a * b * c : ℕ) : ℚ),
      cfg.max_segmentation_ratio, List.mem_append.mpr (Or.inl ?_)⟩
    rw [if_pos hover]
    exact List.mem_singleton.mpr rfl

/-- C8 witness: a fully labelled single-voxel volume exceeds the default
95% threshold, and the iff certifies the warning. -/
theorem overseg_warning_iff_ratio_strictly_above_witness :
    0 < 1 * 1 * 1 ∧
    ((∃ r mx, Msg.overSeg r mx ∈
        (SegmentationValidator.validate_voxel_counts exCfg ex1 [] (1 * 1 * 1)).2.1) ↔
      exCfg.max_segmentation_ratio * ((1 * 1 * 1 : ℕ) : ℚ) < (segCount ex1 : ℚ)) :=
  ⟨by decide, overseg_warning_iff_ratio_strictly_above exCfg ex1 [] (by decide)⟩

/-! ### Helper lemmas about unique label lists and empty volumes -/

theorem nodup_mem_singleton {L : List ℤ} {x : ℤ} (hnd : L.Nodup)
    (hmem : ∀ y, y ∈ L ↔ y = x) : L = [x] := by
  cases L with
  | nil => exact absurd ((hmem x).mpr rfl) (List.not_mem_nil x)
  | cons a t =>
    have ha : a = x := (hmem a).mp (List.mem_cons_self a t)
    subst ha
    have ht : t = [] := by
      by_contra hne
      rcases List.exists_mem_of_ne_nil _ hne with ⟨b, hb⟩
      have hbx : b = a := (hmem b).mp (List.mem_cons_of_mem a hb)
      rw [List.nodup_cons] at hnd
      exact hnd.1 (hbx ▸ hb)
    rw [ht]

theorem pos_dims_of_pos_card {a b c : ℕ} (hpos : 0 < a * b * c) :
    0 < a ∧ 0 < b ∧ 0 < c := by
  refine ⟨?_, ?_, ?_⟩ <;> by_contra h0 <;>
    [ (have : a = 0 := by omega); (have : b = 0 := by omega);
      (have : c = 0 := by omega)] <;> subst this <;> simp at hpos

theorem uniqueValues_allZero {a b c : ℕ} (v : Volume a b c)
    (hpos : 0 < a * b * c) (hz : ∀ p, v p = 0) : uniqueValues v = [0] := by
  refine nodup_mem_singleton (uniqueValues_nodup v) (fun y => ?_)
  rw [mem_uniqueValues]
  constructor
  · rintro ⟨p, rfl⟩
    exact hz p
  · rintro rfl
    rcases pos_dims_of_pos_card hpos with ⟨ha, hb, hc⟩
    exact ⟨(⟨0, ha⟩, ⟨0, hb⟩, ⟨0, hc⟩), hz _⟩

theorem uniqueLabels_allZero {a b c : ℕ} (v : Volume a b c)
    (hz : ∀ p, v p = 0) : uniqueLabels v = [] := by
  rw [List.eq_nil_iff_forall_not_mem]
  intro l hl
  rcases mem_labelsOf.mp (mem_uniqueLabels.mp hl) with ⟨⟨p, hp⟩, hl0⟩
  exact hl0 (hp ▸ hz p)

theorem remove_small_components_allZero {a b c : ℕ} (cfg : Config)
    (v : Volume a b c) (mv : Option ℕ) (hz : ∀ p, v p = 0) :
    SegmentationCleaner.remove_small_components cfg v mv = (v, 0) := by
  rw [SegmentationCleaner.remove_small_components, uniqueLabels_allZero v hz]
  rfl

theorem applyFace_of_no_positive {a b c : ℕ} {v : Volume a b c}
    (hnp : ∀ p, ¬ 0 < v p) (s : Finset (Pos a b c)) :
    SegmentationCleaner.applyFace v s = (v, 0) := by
  rw [SegmentationCleaner.applyFace]
  have hcard : (s.filter (fun p => 0 < v p)).card = 0 := by
    rw [Finset.card_eq_zero, Finset.filter_eq_empty_iff]
    exact fun p _ => hnp p
  simp [hcard]

theorem clean_artifacts_allZero {a b c : ℕ} (v : Volume a b c)
    (hz : ∀ p, v p = 0) : SegmentationCleaner.clean_artifacts v = (v, 0) := by
  have hnp : ∀ p, ¬ 0 < v p := fun p => by rw [hz p]; omega
  rw [SegmentationCleaner.clean_artifacts, SegmentationCleaner.facesList]
  simp [applyFace_of_no_positive hnp]

/-- C4: an all-zero label volume (with at least one voxel, "only
background") fails validation with the "empty" error, and although the
error makes the orchestrator attempt cleanup, both cleanup steps remove
nothing, so `cleaned` stays false and no cleaned volume is attached. -/
theorem empty_volume_error_and_noop_cleanup {a b c : ℕ} (v : Volume a b c)
    (segAffine : Affine) (input : Option ((ℕ × ℕ × ℕ) × Affine))
    (dict : LabelDict) (cfg : Config)
    (hpos : 0 < a * b * c) (hz : ∀ p, v p = 0) :
    (validate_and_clean v segAffine input dict cfg).valid = false ∧
    Msg.emptySeg ∈ (validate_and_clean v segAffine input dict cfg).errors ∧
    strContains (Msg.render Msg.emptySeg) "empty" = true ∧
    SegmentationCleaner.remove_small_components cfg v none = (v, 0) ∧
    SegmentationCleaner.clean_artifacts v = (v, 0) ∧
    (validate_and_clean v segAffine input dict cfg).cleaned = false ∧
    (validate_and_clean v segAffine input dict cfg).cleaned_img = none := by
  have hsta : SegmentationValidator.validate_statistics v =
      (false, [], [Msg.emptySeg]) := by
    rw [SegmentationValidator.validate_statistics, uniqueValues_allZero v hpos hz]
    simp
  have hrsc := remove_small_components_allZero cfg v none hz
  have hart := clean_artifacts_allZero v hz
  refine ⟨?_, ?_, by decide, hrsc, hart, ?_, ?_⟩ <;>
  · rw [validate_and_clean]
    simp only [hsta, hrsc]
    simp only [hart]
    split <;> simp [List.isEmpty_iff, List.append_eq_nil]

/-- C4 witness: the empty-volume behaviour at a concrete 2×2×2 all-zero
volume with the default configuration. -/
theorem empty_volume_error_and_noop_cleanup_witness :
    (validate_and_clean exZero (fun _ _ => 0) none [] exCfg).valid = false ∧
    Msg.emptySeg ∈ (validate_and_clean exZero (fun _ _ => 0) none [] exCfg).errors ∧
    strContains (Msg.render Msg.emptySeg) "empty" = true ∧
    SegmentationCleaner.remove_small_components exCfg exZero none = (exZero, 0) ∧
    SegmentationCleaner.clean_artifacts exZero = (exZero, 0) ∧
    (validate_and_clean exZero (fun _ _ => 0) none [] exCfg).cleaned = false ∧
    (validate_and_clean exZero (fun _ _ => 0) none [] exCfg).cleaned_img = none :=
  empty_volume_error_and_noop_cleanup exZero (fun _ _ => 0) none [] exCfg
    (by decide) (by decide)

/-- The orchestrator's merged warning list, in check order. -/
theorem validate_and_clean_warnings {a b c : ℕ} (v : Volume a b c)
    (segAffine : Affine) (input : Option ((ℕ × ℕ × ℕ) × Affine))
    (dict : LabelDict) (cfg : Config) :
    (validate_and_clean v segAffine input dict cfg).warnings =
      (SegmentationValidator.validate_labels v dict).2.1 ++
        (SegmentationValidator.validate_voxel_counts cfg v dict (a * b * c)).2.1 ++
        (SegmentationValidator.validate_spatial_consistency cfg v).2.1 ++
        (SegmentationValidator.validate_statistics v).2.1 := by
  rw [validate_and_clean]
  dsimp only
  repeat' split
  all_goals rfl

/-- The orchestrator's merged error list, in check order. -/
theorem validate_and_clean_errors {a b c : ℕ} (v : Volume a b c)
    (segAffine : Affine) (input : Option ((ℕ × ℕ × ℕ) × Affine))
    (dict : LabelDict) (cfg : Config) :
    (validate_and_clean v segAffine input dict cfg).errors =
      (SegmentationValidator.validate_dimensions (a, b, c) segAffine input).2 ++
        (SegmentationValidator.validate_labels v dict).2.2 ++
        (SegmentationValidator.validate_voxel_counts cfg v dict (a * b * c)).2.2 ++
        (SegmentationValidator.validate_spatial_consistency cfg v).2.2 ++
        (SegmentationValidator.validate_statistics v).2.2 := by
  rw [validate_and_clean]
  dsimp only
  repeat' split
  all_goals rfl

/-- C10: a volume whose nonzero voxels all carry one label `l` (and that has
at least one such voxel) receives a dominance warning naming `l` with share
100% from the statistical check, so the orchestrator's merged warning list
is never empty for such a volume. -/
theorem single_label_dominance_warning {a b c : ℕ} (v : Volume a b c) (l : ℤ)
    (segAffine : Affine) (input : Option ((ℕ × ℕ × ℕ) × Affine))
    (dict : LabelDict) (cfg : Config)
    (hl : l ≠ 0) (hex : ∃ p, v p = l) (hall : ∀ p, v p ≠ 0 → v p = l) :
    Msg.dominance l 1 ∈ (SegmentationValidator.validate_statistics v).2.1 ∧
    (validate_and_clean v segAffine input dict cfg).warnings ≠ [] := by
  rcases hex with ⟨p0, hp0⟩
  have hlabels : uniqueLabels v = [l] := by
    refine nodup_mem_singleton (uniqueLabels_nodup v) (fun y => ?_)
    rw [mem_uniqueLabels, mem_labelsOf]
    constructor
    · rintro ⟨⟨p, rfl⟩, hy0⟩
      exact hall p hy0
    · rintro rfl
      exact ⟨⟨p0, hp0⟩, hl⟩
  have hne0 : uniqueValues v ≠ [0] := by
    intro heq
    have hmem : l ∈ uniqueValues v := mem_uniqueValues.mpr ⟨p0, hp0⟩
    rw [heq, List.mem_singleton] at hmem
    exact hl hmem
  have hn : 0 < countLabel v l :=
    Finset.card_pos.mpr ⟨p0, Finset.mem_filter.mpr ⟨Finset.mem_univ _, hp0⟩⟩
  have hone : mkRat (countLabel v l) (countLabel v l) = 1 := by
    rw [Rat.mkRat_eq_div]
    push_cast
    rw [div_self]
    exact Nat.cast_ne_zero.mpr (by omega)
  have h910 : mkRat 9 10 < 1 := by
    rw [Rat.mkRat_eq_div]
    norm_num
  have hsta : (SegmentationValidator.validate_statistics v).2.1 =
      [Msg.dominance l 1] := by
    rw [SegmentationValidator.validate_statistics, if_neg hne0]
    simp only [hlabels, List.map_cons, List.map_nil, List.sum_cons,
      List.sum_nil, List.foldl_cons, List.foldl_nil, List.isEmpty_cons]
    rw [Nat.add_zero, Nat.zero_max, if_pos hn, hone, if_pos h910]
    simp [List.find?]
  refine ⟨by rw [hsta]; exact List.mem_singleton.mpr rfl, ?_⟩
  rw [validate_and_clean_warnings]
  intro hcon
  have hmem : Msg.dominance l 1 ∈ ([] : List Msg) := by
    rw [← hcon]
    refine List.mem_append.mpr (Or.inr ?_)
    rw [hsta]
    exact List.mem_singleton.mpr rfl
  exact absurd hmem (List.not_mem_nil _)

/-- C10 witness: the dominance warning on a single-voxel volume carrying
label 5. -/
theorem single_label_dominance_warning_witness :
    Msg.dominance 5 1 ∈ (SegmentationValidator.validate_statistics ex1).2.1 ∧
    (validate_and_clean ex1 (fun _ _ => 0) none [] exCfg).warnings ≠ [] :=
  single_label_dominance_warning ex1 5 (fun _ _ => 0) none [] exCfg
    (by decide) (by decide) (by decide)

/-- C3: cleanup observability in `validate_and_clean`.  `cleaned` is true
exactly when cleanup is enabled, the merged warnings or errors are
non-empty (so the pass is attempted), and one of the two cleanup steps
(`remove_small_components` on the input, then `clean_artifacts` on its
output) actually removed something; and exactly in that case the final
cleaned volume is attached and both removal counts are recorded in the
stats. -/
theorem cleanup_applied_iff_enabled_issues_and_removal {a b c : ℕ}
    (v : Volume a b c) (segAffine : Affine)
    (input : Option ((ℕ × ℕ × ℕ) × Affine)) (dict : LabelDict) (cfg : Config) :
    ((validate_and_clean v segAffine input dict cfg).cleaned = true ↔
      (cfg.enable_cleanup = true ∧
        ((validate_and_clean v segAffine input dict cfg).warnings ≠ [] ∨
          (validate_and_clean v segAffine input dict cfg).errors ≠ []) ∧
        (0 < (SegmentationCleaner.remove_small_components cfg v none).2 ∨
          0 < (SegmentationCleaner.clean_artifacts
            (SegmentationCleaner.remove_small_components cfg v none).1).2))) ∧
    ((validate_and_clean v segAffine input dict cfg).cleaned_img =
      if cfg.enable_cleanup = true ∧
          ((validate_and_clean v segAffine input dict cfg).warnings ≠ [] ∨
            (validate_and_clean v segAffine input dict cfg).errors ≠ []) ∧
          (0 < (SegmentationCleaner.remove_small_components cfg v none).2 ∨
            0 < (SegmentationCleaner.clean_artifacts
              (SegmentationCleaner.remove_small_components cfg v none).1).2) then
        some (SegmentationCleaner.clean_artifacts
          (SegmentationCleaner.remove_small_components cfg v none).1).1
      else none) ∧
    ((validate_and_clean v segAffine input dict cfg).stats.components_removed =
      if cfg.enable_cleanup = true ∧
          ((validate_and_clean v segAffine input dict cfg).warnings ≠ [] ∨
            (validate_and_clean v segAffine input dict cfg).errors ≠ []) ∧
          (0 < (SegmentationCleaner.remove_small_components cfg v none).2 ∨
            0 < (SegmentationCleaner.clean_artifacts
              (SegmentationCleaner.remove_small_components cfg v none).1).2) then
        some (SegmentationCleaner.remove_small_components cfg v none).2
      else none) ∧
    ((validate_and_clean v segAffine input dict cfg).stats.artifacts_removed =
      if cfg.enable_cleanup = true ∧
          ((validate_and_clean v segAffine input dict cfg).warnings ≠ [] ∨
            (validate_and_clean v segAffine input dict cfg).errors ≠ []) ∧
          (0 < (SegmentationCleaner.remove_small_components cfg v none).2 ∨
            0 < (SegmentationCleaner.clean_artifacts
              (SegmentationCleaner.remove_small_components cfg v none).1).2) then
        some (SegmentationCleaner.clean_artifacts
          (SegmentationCleaner.remove_small_components cfg v none).1).2
      else none) := by
  rw [validate_and_clean_warnings, validate_and_clean_errors]
  rw [validate_and_clean]
  dsimp only
  by_cases h1 : cfg.enable_cleanup = true ∧
      ((SegmentationValidator.validate_labels v dict).2.1 ++
        (SegmentationValidator.validate_voxel_counts cfg v dict (a * b * c)).2.1 ++
        (SegmentationValidator.validate_spatial_consistency cfg v).2.1 ++
        (SegmentationValidator.validate_statistics v).2.1 ≠ [] ∨
       (SegmentationValidator.validate_dimensions (a, b, c) segAffine input).2 ++
        (SegmentationValidator.validate_labels v dict).2.2 ++
        (SegmentationValidator.validate_voxel_counts cfg v dict (a * b * c)).2.2 ++
        (SegmentationValidator.validate_spatial_consistency cfg v).2.2 ++
        (SegmentationValidator.validate_statistics v).2.2 ≠ [])
  · rw [if_pos h1]
    by_cases h2 : 0 < (SegmentationCleaner.remove_small_components cfg v none).2 ∨
        0 < (SegmentationCleaner.clean_artifacts
          (SegmentationCleaner.remove_small_components cfg v none).1).2
    · rw [if_pos h2]
      refine ⟨iff_of_true rfl ⟨h1.1, h1.2, h2⟩, ?_, ?_, ?_⟩ <;>
        rw [if_pos (And.intro h1.1 (And.intro h1.2 h2))]
    · rw [if_neg h2]
      have hnc : ¬ (cfg.enable_cleanup = true ∧
          ((SegmentationValidator.validate_labels v dict).2.1 ++
            (SegmentationValidator.validate_voxel_counts cfg v dict (a * b * c)).2.1 ++
            (SegmentationValidator.validate_spatial_consistency cfg v).2.1 ++
            (SegmentationValidator.validate_statistics v).2.1 ≠ [] ∨
           (SegmentationValidator.validate_dimensions (a, b, c) segAffine input).2 ++
            (SegmentationValidator.validate_labels v dict).2.2 ++
            (SegmentationValidator.validate_voxel_counts cfg v dict (a * b * c)).2.2 ++
            (SegmentationValidator.validate_spatial_consistency cfg v).2.2 ++
            (SegmentationValidator.validate_statistics v).2.2 ≠ []) ∧
          (0 < (SegmentationCleaner.remove_small_components cfg v none).2 ∨
            0 < (SegmentationCleaner.clean_artifacts
              (SegmentationCleaner.remove_small_components cfg v none).1).2)) :=
        fun hc => h2 hc.2.2
      refine ⟨iff_of_false (by simp) hnc, ?_, ?_, ?_⟩ <;> rw [if_neg hnc]
  · rw [if_neg h1]
    have hnc : ¬ (cfg.enable_cleanup = true ∧
        ((SegmentationValidator.validate_labels v dict).2.1 ++
          (SegmentationValidator.validate_voxel_counts cfg v dict (a * b * c)).2.1 ++
          (SegmentationValidator.validate_spatial_consistency cfg v).2.1 ++
          (SegmentationValidator.validate_statistics v).2.1 ≠ [] ∨
         (SegmentationValidator.validate_dimensions (a, b, c) segAffine input).2 ++
          (SegmentationValidator.validate_labels v dict).2.2 ++
          (SegmentationValidator.validate_voxel_counts cfg v dict (a * b * c)).2.2 ++
          (SegmentationValidator.validate_spatial_consistency cfg v).2.2 ++
          (SegmentationValidator.validate_statistics v).2.2 ≠ []) ∧
        (0 < (SegmentationCleaner.remove_small_components cfg v none).2 ∨
          0 < (SegmentationCleaner.clean_artifacts
            (SegmentationCleaner.remove_small_components cfg v none).1).2)) :=
      fun hc => h1 ⟨hc.1, hc.2.1⟩
    refine ⟨iff_of_false (by simp) hnc, ?_, ?_, ?_⟩ <;> rw [if_neg hnc]

/-! ### The component-removal pass realises `prunedBy` (towards C5) -/

theorem maskOf_prunedBy {a b c : ℕ} (v : Volume a b c) (t : ℕ) (S : Finset ℤ)
    {l : ℤ} (hl : l ≠ 0) (hlS : l ∉ S) :
    maskOf (prunedBy v t S) l = maskOf v l := by
  funext p
  simp only [maskOf, decide_eq_decide, prunedBy]
  by_cases hc : v p ∈ S ∧ (classOf (maskOf v (v p)) p).card < t
  · rw [if_pos hc]
    constructor
    · intro h0
      exact absurd h0.symm hl
    · intro hvp
      exact absurd (hvp ▸ hc.1) hlS
  · rw [if_neg hc]

theorem pruneLabel_prunedBy {a b c : ℕ} (v : Volume a b c) (t : ℕ)
    (S : Finset ℤ) {l : ℤ} (hl : l ≠ 0) (hlS : l ∉ S) :
    SegmentationCleaner.pruneLabel t (prunedBy v t S) l =
      prunedBy v t (insert l S) := by
  funext p
  rw [SegmentationCleaner.pruneLabel, maskOf_prunedBy v t S hl hlS]
  by_cases hvp : v p = l
  · have hwp : prunedBy v t S p = l := by
      rw [prunedBy, if_neg]
      · exact hvp
      · rintro ⟨hmem, -⟩
        exact hlS (hvp ▸ hmem)
    rw [hwp, prunedBy, hvp]
    by_cases hsm : (classOf (maskOf v l) p).card < t
    · rw [if_pos ⟨rfl, hsm⟩, if_pos ⟨Finset.mem_insert_self l S, hsm⟩]
    · rw [if_neg (fun hc => hsm hc.2), if_neg (fun hc => hsm hc.2)]
  · have hw : prunedBy v t S p ≠ l := by
      rw [prunedBy]
      split
      · exact fun h0 => hl h0.symm
      · exact hvp
    rw [if_neg (fun hc => hw hc.1), prunedBy, prunedBy]
    by_cases hc : v p ∈ S ∧ (classOf (maskOf v (v p)) p).card < t
    · rw [if_pos hc, if_pos ⟨Finset.mem_insert_of_mem hc.1, hc.2⟩]
    · rw [if_neg hc, if_neg]
      rintro ⟨hins, hsm⟩
      rcases Finset.mem_insert.mp hins with h | h
      · exact hvp h
      · exact hc ⟨h, hsm⟩

theorem removeSmall_foldl {a b c : ℕ} (v : Volume a b c) (t : ℕ) :
    ∀ (L : List ℤ) (S : Finset ℤ) (n : ℕ), L.Nodup → (∀ x ∈ L, x ≠ 0) →
      (∀ x ∈ L, x ∉ S) →
      L.foldl (fun acc l => (SegmentationCleaner.pruneLabel t acc.1 l,
          acc.2 + SegmentationCleaner.countSmallComps t (maskOf acc.1 l)))
        (prunedBy v t S, n) =
      (prunedBy v t (S ∪ L.toFinset),
        n + (L.map (fun l =>
          SegmentationCleaner.countSmallComps t (maskOf v l))).sum) := by
  intro L
  induction L with
  | nil =>
    intro S n _ _ _
    simp
  | cons l L ih =>
    intro S n hnd h0 hS
    have hl0 : l ≠ 0 := h0 l (List.mem_cons_self l L)
    have hlS : l ∉ S := hS l (List.mem_cons_self l L)
    rw [List.foldl_cons]
    simp only [maskOf_prunedBy v t S hl0 hlS, pruneLabel_prunedBy v t S hl0 hlS]
    rw [List.nodup_cons] at hnd
    rw [ih (insert l S) (n + SegmentationCleaner.countSmallComps t (maskOf v l))
      hnd.2 (fun x hx => h0 x (List.mem_cons_of_mem l hx))
      (fun x hx => by
        rw [Finset.mem_insert]
        rintro (rfl | hxS)
        · exact hnd.1 hx
        · exact hS x (List.mem_cons_of_mem l hx) hxS)]
    refine Prod.ext ?_ ?_
    · show prunedBy v t (insert l S ∪ L.toFinset) = prunedBy v t (S ∪ (l :: L).toFinset)
      rw [List.toFinset_cons, Finset.insert_union, Finset.union_insert]
    · show n + _ + _ = n + _
      rw [List.map_cons, List.sum_cons, Nat.add_assoc]

/-- `remove_small_components` with an explicit threshold computes the
`prunedBy` volume over all nonzero labels, and counts the small components
of every label of the input. -/
theorem remove_small_components_eq {a b c : ℕ} (cfg : Config)
    (v : Volume a b c) (t : ℕ) :
    SegmentationCleaner.remove_small_components cfg v (some t) =
      (prunedBy v t (labelsOf v),
        ((uniqueLabels v).map (fun l =>
          SegmentationCleaner.countSmallComps t (maskOf v l))).sum) := by
  rw [SegmentationCleaner.remove_small_components]
  simp only [Option.getD_some]
  have h0 : prunedBy v t ∅ = v := by
    funext p
    rw [prunedBy]
    simp
  rw [show ((v, 0) : Volume a b c × ℕ) = (prunedBy v t ∅, 0) by rw [h0]]
  rw [removeSmall_foldl v t (uniqueLabels v) ∅ 0 (uniqueLabels_nodup v)
    (fun x hx => (mem_labelsOf.mp (mem_uniqueLabels.mp hx)).2)
    (fun x _ => Finset.not_mem_empty x)]
  refine Prod.ext ?_ (by rw [Nat.zero_add])
  show prunedBy v t (∅ ∪ (uniqueLabels v).toFinset) = _
  rw [Finset.empty_union]
  have hset : (uniqueLabels v).toFinset = labelsOf v := by
    ext x
    rw [List.mem_toFinset, mem_uniqueLabels]
  rw [hset]

/-- Labels that survive pruning are exactly the mask voxels whose original
component met the threshold. -/
theorem maskOf_pruned_iff {a b c : ℕ} {v : Volume a b c} {t : ℕ} {l : ℤ}
    (hl : l ≠ 0) (x : Pos a b c) :
    maskOf (prunedBy v t (labelsOf v)) l x = true ↔
      (maskOf v l x = true ∧ t ≤ (classOf (maskOf v l) x).card) := by
  rw [maskOf_eq_true, maskOf_eq_true, prunedBy]
  by_cases hvx : v x = l
  · rw [hvx]
    have hmem : l ∈ labelsOf v := mem_labelsOf.mpr ⟨⟨x, hvx⟩, hl⟩
    by_cases hsm : (classOf (maskOf v l) x).card < t
    · rw [if_pos ⟨hmem, hsm⟩]
      refine iff_of_false (fun h0 => hl h0.symm) (fun h => ?_)
      omega
    · rw [if_neg (fun hc => hsm hc.2)]
      exact iff_of_true rfl ⟨rfl, Nat.le_of_not_lt hsm⟩
  · refine iff_of_false ?_ (fun h => hvx h.1)
    split
    · exact fun h0 => hl h0.symm
    · exact hvx

/-- Pruning keeps every surviving voxel's component intact. -/
theorem classOf_pruned {a b c : ℕ} {v : Volume a b c} {t : ℕ} {l : ℤ}
    (hl : l ≠ 0) {p : Pos a b c}
    (hp : maskOf (prunedBy v t (labelsOf v)) l p = true) :
    classOf (maskOf (prunedBy v t (labelsOf v)) l) p =
      classOf (maskOf v l) p := by
  have hsub : ∀ x, maskOf (prunedBy v t (labelsOf v)) l x = true →
      maskOf v l x = true := fun x hx => ((maskOf_pruned_iff hl x).mp hx).1
  rcases (maskOf_pruned_iff hl p).mp hp with ⟨hmp, hcard⟩
  have hcomp : ∀ x, Reach (maskOf v l) p x →
      maskOf (prunedBy v t (labelsOf v)) l x = true := by
    intro x hx
    refine (maskOf_pruned_iff hl x).mpr ⟨reach_mem hx, ?_⟩
    rw [← classOf_eq_of_reach hx]
    exact hcard
  exact (classOf_eq_of_subMask hsub hcomp).symm

/-- After pruning at threshold `t`, no label retains a component smaller
than `t`. -/
theorem countSmall_pruned_zero {a b c : ℕ} {v : Volume a b c} {t : ℕ}
    {l : ℤ} (hl : l ≠ 0) :
    SegmentationCleaner.countSmallComps t
      (maskOf (prunedBy v t (labelsOf v)) l) = 0 := by
  rw [SegmentationCleaner.countSmallComps, Finset.card_eq_zero,
    Finset.filter_eq_empty_iff]
  intro s hs
  rcases mem_componentsOf.mp hs with ⟨x, hx, rfl⟩
  rw [classOf_pruned hl hx]
  have hle := ((maskOf_pruned_iff hl x).mp hx).2
  omega

/-- C5: `remove_small_components` is idempotent at a fixed threshold: a
second pass on its own output (under any configuration) removes zero
components and returns the same volume. -/
theorem remove_small_components_idempotent {a b c : ℕ} (cfg cfg' : Config)
    (v : Volume a b c) (t : ℕ) :
    SegmentationCleaner.remove_small_components cfg'
        (SegmentationCleaner.remove_small_components cfg v (some t)).1 (some t) =
      ((SegmentationCleaner.remove_small_components cfg v (some t)).1, 0) := by
  rw [remove_small_components_eq cfg v t]
  rw [remove_small_components_eq cfg' (prunedBy v t (labelsOf v)) t]
  refine Prod.ext ?_ ?_
  · show prunedBy (prunedBy v t (labelsOf v)) t
        (labelsOf (prunedBy v t (labelsOf v))) = prunedBy v t (labelsOf v)
    funext p
    rw [prunedBy]
    by_cases hp0 : prunedBy v t (labelsOf v) p = 0
    · rw [if_neg]
      rintro ⟨hmem, -⟩
      exact (mem_labelsOf.mp hmem).2 hp0
    · have hmask : maskOf (prunedBy v t (labelsOf v))
          (prunedBy v t (labelsOf v) p) p = true := maskOf_eq_true.mpr rfl
      rw [if_neg]
      rintro ⟨-, hsmall⟩
      rw [classOf_pruned hp0 hmask] at hsmall
      have hle := ((maskOf_pruned_iff hp0 p).mp hmask).2
      omega
  · show (List.map _ _).sum = 0
    rw [List.sum_eq_zero]
    intro x hx
    rcases List.mem_map.mp hx with ⟨l, hl, rfl⟩
    exact countSmall_pruned_zero (mem_labelsOf.mp (mem_uniqueLabels.mp hl)).2

/-- C1 counterexample: the spatial-consistency check counts small
components only for labels whose mask splits into more than one component
(`num_features > 1`).  A volume whose label-5 mask is a single component of
1 voxel (below the threshold 10) therefore produces no warning at all,
against the claim that such a component contributes 1 to the total and
forces a warning. -/
theorem spatial_check_skips_single_small_component :
    5 ∈ labelsOf ex1 ∧
    (componentsOf (maskOf ex1 5)).card = 1 ∧
    (classOf (maskOf ex1 5) ((0 : Fin 1), (0 : Fin 1), (0 : Fin 1))).card <
      exCfg.min_voxels_per_component ∧
    (SegmentationValidator.validate_spatial_consistency exCfg ex1).2.1 = [] := by
  decide

/-- The label sets of the ascending unique-label list. -/
theorem uniqueLabels_toFinset_eq {a b c : ℕ} (v : Volume a b c) :
    (uniqueLabels v).toFinset = labelsOf v := by
  ext x
  rw [List.mem_toFinset, mem_uniqueLabels]

/-- C1 amended: in the spatial-consistency check a small component counts
toward the total only when its label's mask has more than one connected
component (a label forming a single small component contributes nothing);
the check emits exactly one aggregated warning, carrying that total, if and
only if the total is nonzero, and never produces errors. -/
theorem spatial_small_component_aggregation {a b c : ℕ} (cfg : Config)
    (v : Volume a b c) :
    ((SegmentationValidator.validate_spatial_consistency cfg v).2.1 ≠ [] ↔
      ∃ l ∈ labelsOf v, 1 < (componentsOf (maskOf v l)).card ∧
        ∃ s ∈ componentsOf (maskOf v l),
          s.card < cfg.min_voxels_per_component) ∧
    (SegmentationValidator.validate_spatial_consistency cfg v).2.1.length ≤ 1 ∧
    (SegmentationValidator.validate_spatial_consistency cfg v).2.2 = [] ∧
    (SegmentationValidator.validate_spatial_consistency cfg v).1 = true ∧
    ∀ total minV, Msg.smallComponents total minV ∈
        (SegmentationValidator.validate_spatial_consistency cfg v).2.1 →
      total = ∑ l ∈ labelsOf v,
        (if 1 < (componentsOf (maskOf v l)).card then
          ((componentsOf (maskOf v l)).filter
            (fun s => s.card < cfg.min_voxels_per_component)).card
        else 0) := by
  have hfold : ∀ (L : List ℤ) (n : ℕ),
      L.foldl (fun acc l =>
        if 1 < (componentsOf (maskOf v l)).card then
          acc + ((componentsOf (maskOf v l)).filter
            (fun s => s.card < cfg.min_voxels_per_component)).card
        else acc) n =
      n + (L.map (fun l =>
        if 1 < (componentsOf (maskOf v l)).card then
          ((componentsOf (maskOf v l)).filter
            (fun s => s.card < cfg.min_voxels_per_component)).card
        else 0)).sum := by
    intro L
    induction L with
    | nil => intro n; simp
    | cons l L ih =>
      intro n
      rw [List.foldl_cons, List.map_cons, List.sum_cons]
      by_cases hc : 1 < (componentsOf (maskOf v l)).card
      · rw [if_pos hc, if_pos hc, ih, Nat.add_assoc]
      · rw [if_neg hc, if_neg hc, ih, Nat.zero_add]
  have hsum : ((uniqueLabels v).map (fun l =>
      if 1 < (componentsOf (maskOf v l)).card then
        ((componentsOf (maskOf v l)).filter
          (fun s => s.card < cfg.min_voxels_per_component)).card
      else 0)).sum =
      ∑ l ∈ labelsOf v,
        (if 1 < (componentsOf (maskOf v l)).card then
          ((componentsOf (maskOf v l)).filter
            (fun s => s.card < cfg.min_voxels_per_component)).card
        else 0) := by
    rw [← uniqueLabels_toFinset_eq v, List.sum_toFinset _ (uniqueLabels_nodup v)]
  have hT : (SegmentationValidator.validate_spatial_consistency cfg v).2.1 =
      if 0 < ∑ l ∈ labelsOf v,
          (if 1 < (componentsOf (maskOf v l)).card then
            ((componentsOf (maskOf v l)).filter
              (fun s => s.card < cfg.min_voxels_per_component)).card
          else 0) then
        [Msg.smallComponents (∑ l ∈ labelsOf v,
          (if 1 < (componentsOf (maskOf v l)).card then
            ((componentsOf (maskOf v l)).filter
              (fun s => s.card < cfg.min_voxels_per_component)).card
          else 0)) cfg.min_voxels_per_component]
      else [] := by
    rw [SegmentationValidator.validate_spatial_consistency]
    dsimp only
    rw [hfold, Nat.zero_add, hsum]
  refine ⟨?_, ?_, rfl, rfl, ?_⟩
  · rw [hT]
    by_cases hpos : 0 < ∑ l ∈ labelsOf v,
        (if 1 < (componentsOf (maskOf v l)).card then
          ((componentsOf (maskOf v l)).filter
            (fun s => s.card < cfg.min_voxels_per_component)).card
        else 0)
    · rw [if_pos hpos]
      refine iff_of_true (List.cons_ne_nil _ _) ?_
      rcases Finset.exists_ne_zero_of_sum_ne_zero (Nat.pos_iff_ne_zero.mp hpos)
        with ⟨l, hl, hgl⟩
      by_cases hc : 1 < (componentsOf (maskOf v l)).card
      · rw [if_pos hc] at hgl
        rcases Finset.card_pos.mp (Nat.pos_of_ne_zero hgl) with ⟨s, hs⟩
        rcases Finset.mem_filter.mp hs with ⟨hsc, hsmall⟩
        exact ⟨l, hl, hc, s, hsc, hsmall⟩
      · rw [if_neg hc] at hgl
        exact absurd rfl hgl
    · rw [if_neg hpos]
      refine iff_of_false (fun hne => hne rfl) ?_
      rintro ⟨l, hl, hc, s, hsc, hsmall⟩
      have hzero : ∀ x ∈ labelsOf v,
          (if 1 < (componentsOf (maskOf v x)).card then
            ((componentsOf (maskOf v x)).filter
              (fun s => s.card < cfg.min_voxels_per_component)).card
          else 0) = 0 :=
        Finset.sum_eq_zero_iff.mp (Nat.eq_zero_of_not_pos hpos)
      have hgl := hzero l hl
      rw [if_pos hc, Finset.card_eq_zero] at hgl
      have : s ∈ (∅ : Finset (Finset (Pos a b c))) :=
        hgl ▸ Finset.mem_filter.mpr ⟨hsc, hsmall⟩
      exact absurd this (Finset.not_mem_empty s)
  · rw [hT]
    split <;> simp
  · intro total minV hmem
    rw [hT] at hmem
    rcases (em _) with hpos | hpos
    · rw [if_pos hpos] at hmem
      rw [List.mem_singleton] at hmem
      have := Msg.smallComponents.injEq total minV _ _ ▸ hmem
      cases hmem
      rfl
    · rw [if_neg hpos] at hmem
      exact absurd hmem (List.not_mem_nil _)

/-- C1 amended witness: the aggregation characterisation applied to the
single-voxel volume. -/
theorem spatial_small_component_aggregation_witness :
    ((SegmentationValidator.validate_spatial_consistency exCfg ex1).2.1 ≠ [] ↔
      ∃ l ∈ labelsOf ex1, 1 < (componentsOf (maskOf ex1 l)).card ∧
        ∃ s ∈ componentsOf (maskOf ex1 l),
          s.card < exCfg.min_voxels_per_component) ∧
    (SegmentationValidator.validate_spatial_consistency exCfg ex1).2.1.length ≤ 1 ∧
    (SegmentationValidator.validate_spatial_consistency exCfg ex1).2.2 = [] ∧
    (SegmentationValidator.validate_spatial_consistency exCfg ex1).1 = true ∧
    ∀ total minV, Msg.smallComponents total minV ∈
        (SegmentationValidator.validate_spatial_consistency exCfg ex1).2.1 →
      total = ∑ l ∈ labelsOf ex1,
        (if 1 < (componentsOf (maskOf ex1 l)).card then
          ((componentsOf (maskOf ex1 l)).filter
            (fun s => s.card < exCfg.min_voxels_per_component)).card
        else 0) :=
  spatial_small_component_aggregation exCfg ex1

end Vista3D
